import Mathlib

/-!
Verification development for the Chronologicon Engine (event-timeline service).

The JavaScript/SQL source is shallowly embedded in Lean:
* strings are `List Char` (JS string operations such as `split('|')`, `trim()`,
  `toUpperCase()` are re-implemented on character lists);
* timestamps are epoch milliseconds (`Int`), assuming a UTC environment, so that
  `new Date(iso).getTime()` becomes an exact integer;
* the SQL value `EXTRACT(EPOCH FROM ...) / 60` (fractional minutes) is carried
  as its exact numerator in milliseconds (`Int`); comparisons with `0` and the
  `ORDER BY ... DESC` ordering are preserved by this scaling, and the JavaScript
  `Math.round(ms / 60000)` is the integer `⌊(ms + 30000) / 60000⌋`, i.e.
  `Int.fdiv (ms + 30000) 60000`;
* `async` database calls become pure functions over an explicit repository
  (`List Event`), with SQL result-row order modelled by insertion order and
  `ORDER BY` by a stable insertion sort.
-/

deriving instance DecidableEq for Except

namespace Kelp

/-- Characters of a JS string. -/
abbrev Str := List Char

/-- Splitting on a single separator character, as JS `string.split(sep)`:
`"".split(sep)` is `[""]`, and adjacent separators produce empty fields. -/
def splitOnChar (sep : Char) : Str → List Str
  | [] => [[]]
  | c :: cs =>
    if c = sep then
      [] :: splitOnChar sep cs
    else
      match splitOnChar sep cs with
      | [] => [[c]]
      | f :: fs => (c :: f) :: fs

/-- JS `string.trim()`: strip whitespace from both ends. -/
def trimChars (cs : Str) : Str :=
  ((cs.dropWhile Char.isWhitespace).reverse.dropWhile Char.isWhitespace).reverse

/-- JS `string.toUpperCase()` (ASCII is all the code needs for the NULL literal). -/
def upperChars (cs : Str) : Str := cs.map Char.toUpper

/-- Lexicographic comparison of strings by code point, as SQL compares the
`event_id` values in the self-join `e1.event_id < e2.event_id`. -/
def strLt : Str → Str → Bool
  | [], [] => false
  | [], _ :: _ => true
  | _ :: _, [] => false
  | a :: as, b :: bs => if a < b then true else if b < a then false else strLt as bs

/-- Numeric value of a run of decimal digits. -/
def digitsVal (ds : Str) : Nat :=
  ds.foldl (fun a c => a * 10 + (c.toNat - 48)) 0

/-- JS `parseInt(s, 10)`: skip leading whitespace, optional sign, then the
longest run of leading decimal digits; `NaN` (here `none`) when no digit
follows.  Trailing garbage such as `.9` or `abc` is ignored. -/
def jsParseInt (s : Str) : Option Int :=
  let cs := s.dropWhile Char.isWhitespace
  let sign : Int := match cs with
    | '-' :: _ => -1
    | _ => 1
  let cs' := match cs with
    | '-' :: r => r
    | '+' :: r => r
    | _ => cs
  let ds := cs'.takeWhile Char.isDigit
  if ds.isEmpty then none else some (sign * (digitsVal ds : Int))

/-- Consume exactly `n` decimal digits, returning their value and the rest. -/
def readDigits : Nat → Str → Option (Nat × Str)
  | 0, cs => some (0, cs)
  | _ + 1, [] => none
  | n + 1, c :: cs =>
    if c.isDigit then
      match readDigits n cs with
      | some (v, rest) => some ((c.toNat - 48) * 10 ^ n + v, rest)
      | none => none
    else none

/-- Consume one expected character. -/
def expectChar (c : Char) : Str → Option Str
  | [] => none
  | c' :: cs => if c' = c then some cs else none

/-- Hexadecimal digit, either case, as the character class `[0-9a-f]` under
the case-insensitive regex flag. -/
def isHexChar (c : Char) : Bool :=
  c.isDigit || ('a' ≤ c && c ≤ 'f') || ('A' ≤ c && c ≤ 'F')

/-- Consume exactly `n` hexadecimal digits (either case). -/
def readHex : Nat → Str → Option Str
  | 0, cs => some cs
  | _ + 1, [] => none
  | n + 1, c :: cs => if isHexChar c then readHex n cs else none

/-- The UUID shape test of `validateUUID`: the anchored regex
`[0-9a-f]{8}-[0-9a-f]{4}-[0-9a-f]{4}-[0-9a-f]{4}-[0-9a-f]{12}` with the
case-insensitive flag. -/
def validateUUID (s : Str) : Bool :=
  match readHex 8 s with
  | none => false
  | some s =>
    match expectChar '-' s with
    | none => false
    | some s =>
      match readHex 4 s with
      | none => false
      | some s =>
        match expectChar '-' s with
        | none => false
        | some s =>
          match readHex 4 s with
          | none => false
          | some s =>
            match expectChar '-' s with
            | none => false
            | some s =>
              match readHex 4 s with
              | none => false
              | some s =>
                match expectChar '-' s with
                | none => false
                | some s =>
                  match readHex 12 s with
                  | none => false
                  | some s => s.isEmpty

/-- Gregorian leap-year rule. -/
def isLeap (y : Nat) : Bool :=
  y % 4 = 0 && (y % 100 ≠ 0 || y % 400 = 0)

/-- Days in a month of a given year. -/
def daysInMonth (y m : Nat) : Nat :=
  if m = 1 then 31
  else if m = 2 then (if isLeap y then 29 else 28)
  else if m = 3 then 31
  else if m = 4 then 30
  else if m = 5 then 31
  else if m = 6 then 30
  else if m = 7 then 31
  else if m = 8 then 31
  else if m = 9 then 30
  else if m = 10 then 31
  else if m = 11 then 30
  else if m = 12 then 31
  else 0

/-- Days from 1970-01-01 to the given civil date (proleptic Gregorian), the
standard days-from-civil computation used to model `Date.getTime()`. -/
def daysFromCivil (y m d : Int) : Int :=
  let y' := if m ≤ 2 then y - 1 else y
  let era := Int.fdiv y' 400
  let yoe := y' - era * 400
  let mp := if 2 < m then m - 3 else m + 9
  let doy := Int.fdiv (153 * mp + 2) 5 + d - 1
  let doe := yoe * 365 + Int.fdiv yoe 4 - Int.fdiv yoe 100 + doy
  era * 146097 + doe - 719468

/-- Parse an ISO-8601 date-time of the exact shape
`YYYY-MM-DDTHH:mm:ss(.fff)?Z?` to epoch milliseconds, returning `none` when
the shape or the calendar fields are invalid.  This models the conjunction of
the `validateISODate` regex test and the validity of `new Date(s)` in a UTC
environment (a string of this shape is rejected by `new Date` exactly when a
field is out of range); the rare `24:00:00` form is not modelled. -/
def parseISOms (s : Str) : Option Int :=
  match readDigits 4 s with
  | none => none
  | some (y, s) =>
    match expectChar '-' s with
    | none => none
    | some s =>
      match readDigits 2 s with
      | none => none
      | some (mo, s) =>
        match expectChar '-' s with
        | none => none
        | some s =>
          match readDigits 2 s with
          | none => none
          | some (d, s) =>
            match expectChar 'T' s with
            | none => none
            | some s =>
              match readDigits 2 s with
              | none => none
              | some (h, s) =>
                match expectChar ':' s with
                | none => none
                | some s =>
                  match readDigits 2 s with
                  | none => none
                  | some (mi, s) =>
                    match expectChar ':' s with
                    | none => none
                    | some s =>
                      match readDigits 2 s with
                      | none => none
                      | some (sec, s) =>
                        let frac : Option (Nat × Str) :=
                          match s with
                          | '.' :: rest =>
                            match readDigits 3 rest with
                            | some (v, rest') => some (v, rest')
                            | none => none
                          | _ => some (0, s)
                        match frac with
                        | none => none
                        | some (ms, s) =>
                          let s := match s with
                            | 'Z' :: rest => rest
                            | _ => s
                          if s.isEmpty then
                            if 1 ≤ mo ∧ mo ≤ 12 ∧ 1 ≤ d ∧ d ≤ daysInMonth y mo ∧
                                h ≤ 23 ∧ mi ≤ 59 ∧ sec ≤ 59 then
                              some ((daysFromCivil (y : Int) (mo : Int) (d : Int) * 86400 +
                                (h : Int) * 3600 + (mi : Int) * 60 + (sec : Int)) * 1000 + (ms : Int))
                            else none
                          else none

/-- The `validateISODate` check: regex shape and `new Date` validity. -/
def validateISODate (s : Str) : Bool := (parseISOms s).isSome

/-- Decimal digits of a natural number, for rendering error messages. -/
def natChars (n : Nat) : Str := Nat.toDigits 10 n

/-- Decimal rendering of an integer. -/
def intChars (i : Int) : Str :=
  if i < 0 then '-' :: natChars i.natAbs else natChars i.natAbs

/-- The single-quote character used around offending values in error messages. -/
def quoteChar : Char := Char.ofNat 39

/-- The errors thrown by `parseEventLine`, one constructor per `throw` site. -/
inductive ParseError where
  | insufficientFields (expected actual : Nat)
  | invalidUUID (field value : Str)
  | invalidDate (field value : Str)
  | endNotAfterStart
  | invalidResearchValue (value : Str)
  | negativeResearchValue (value : Int)
deriving DecidableEq, Repr

/-- The exact message text of each `throw new Error(...)` in `parseEventLine`. -/
def ParseError.message : ParseError → Str
  | .insufficientFields expected actual =>
      "Insufficient fields. Expected ".data ++ natChars expected ++
        ", got ".data ++ natChars actual
  | .invalidUUID fld v =>
      "Invalid UUID format for ".data ++ fld ++ ": ".data ++
        [quoteChar] ++ v ++ [quoteChar]
  | .invalidDate fld v =>
      "Invalid date format for ".data ++ fld ++ ": ".data ++
        [quoteChar] ++ v ++ [quoteChar]
  | .endNotAfterStart => "end_date must be after start_date".data
  | .invalidResearchValue v =>
      "Invalid research_value: ".data ++ [quoteChar] ++ v ++ [quoteChar]
  | .negativeResearchValue v =>
      "research_value cannot be negative: ".data ++ intChars v

/-- The record built by a successful `parseEventLine`:
`metadata.line_number` is the `line_number` field. -/
structure EventData where
  event_id : Str
  event_name : Str
  description : Str
  start_date : Int
  end_date : Int
  duration_minutes : Int
  parent_event_id : Option Str
  research_value : Int
  line_number : Nat
deriving DecidableEq, Repr

/-- Body of `parseEventLine` up to the line number (which only enters the
returned metadata, so it is threaded in afterwards by `parseEventLine`). -/
def parseEventCore (line : Str) : Except ParseError EventData :=
  let parts := splitOnChar '|' line
  if parts.length < 7 then .error (.insufficientFields 7 parts.length)
  else
    let event_id := parts.getD 0 []
    let event_name := parts.getD 1 []
    let start_date := parts.getD 2 []
    let end_date := parts.getD 3 []
    let parent_id := parts.getD 4 []
    let research_value := parts.getD 5 []
    let description := parts.getD 6 []
    if !validateUUID event_id then .error (.invalidUUID "event_id".data event_id)
    else if !validateISODate start_date then .error (.invalidDate "start_date".data start_date)
    else if !validateISODate end_date then .error (.invalidDate "end_date".data end_date)
    else
      let sms := (parseISOms start_date).getD 0
      let ems := (parseISOms end_date).getD 0
      if ems ≤ sms then .error .endNotAfterStart
      else
        let dur := Int.fdiv (ems - sms) 60000
        if !parent_id.isEmpty && !(upperChars parent_id == "NULL".data) &&
            !validateUUID parent_id then
          .error (.invalidUUID "parent_id".data parent_id)
        else
          let parent_event_id : Option Str :=
            if !parent_id.isEmpty && !(upperChars parent_id == "NULL".data) then some parent_id
            else none
          match jsParseInt research_value with
          | none => .error (.invalidResearchValue research_value)
          | some rv =>
            if rv < 0 then .error (.negativeResearchValue rv)
            else .ok {
              event_id := event_id
              event_name := trimChars event_name
              description := trimChars description
              start_date := sms
              end_date := ems
              duration_minutes := dur
              parent_event_id := parent_event_id
              research_value := rv
              line_number := 0 }

/-- The `parseEventLine(line, lineNumber)` validator: seven pipe-delimited
fields, UUID id, ISO dates with `end > start`, optional UUID parent (the
literal `NULL`, case-insensitively, or the empty string meaning none), and a
`parseInt`-parsed non-negative research value. -/
def parseEventLine (line : Str) (lineNumber : Nat) : Except ParseError EventData :=
  (parseEventCore line).map (fun d => { d with line_number := lineNumber })

/-- A row of the `historical_events` table: the parsed fields plus the
`updated_at` column maintained by the upsert. -/
structure Event extends EventData where
  updated_at : Int
deriving DecidableEq, Repr

/-- The repository: the `historical_events` table as a list of rows in
insertion order. -/
abbrev Repo := List Event

/-- The `HistoricalEvent.create` upsert
(`INSERT ... ON CONFLICT (event_id) DO UPDATE SET ... updated_at = NOW()`):
when a row with the id exists it is replaced in place with every field of the
new data and a fresh `updated_at`; otherwise the new row is appended. -/
def create (repo : Repo) (d : EventData) (now : Int) : Repo :=
  if repo.any (fun e => e.event_id = d.event_id) then
    repo.map (fun e => if e.event_id = d.event_id then ⟨d, now⟩ else e)
  else repo ++ [⟨d, now⟩]

/-- The `findEventById` query (`SELECT * WHERE event_id = $1`, first row). -/
def findEventById (repo : Repo) (id : Str) : Option Event :=
  repo.find? (fun e => e.event_id = id)

/-- Ordering used by `ORDER BY start_date ASC`. -/
def byStart (a b : Event) : Prop := a.start_date ≤ b.start_date

instance : DecidableRel byStart := fun a b => inferInstanceAs (Decidable (_ ≤ _))

/-- The `findAllDirectChildren` query
(`SELECT * WHERE parent_event_id = $1 ORDER BY start_date ASC`). -/
def findAllDirectChildren (repo : Repo) (pid : Str) : List Event :=
  List.insertionSort byStart (repo.filter (fun e => e.parent_event_id = some pid))

/-- Tree node built by `buildTreeHierarchy`: the event with its child
subtrees.  A `none` child mirrors a `null` produced by a recursive call whose
lookup failed (impossible when the repository is consistent, but the JS
faithfully pushes the `null`). -/
inductive TreeNode where
  | node (event : Event) (children : List (Option TreeNode))

/-- The recursive `buildTreeHierarchy(eventId)`.  The JS recursion carries no
cycle guard and no decreasing measure, so the embedding takes explicit fuel:
`none` means the recursion is still running after exhausting the fuel (the
divergence marker), `some none` is the JS `null` (root not found) and
`some (some t)` the completed tree. -/
def buildTreeHierarchy (repo : Repo) (id : Str) : Nat → Option (Option TreeNode)
  | 0 => none
  | fuel + 1 =>
    match findEventById repo id with
    | none => some none
    | some e =>
      match buildChildren repo (findAllDirectChildren repo id) fuel with
      | none => none
      | some cs => some (some (.node e cs))
where
  /-- Sequential recursion over the children list (the `Promise.all` of
  recursive calls): `none` when any child recursion runs out of fuel. -/
  buildChildren (repo : Repo) : List Event → Nat → Option (List (Option TreeNode))
  | [], _ => some []
  | c :: rest, fuel =>
    match buildTreeHierarchy repo c.event_id fuel with
    | none => none
    | some t =>
      match buildChildren repo rest fuel with
      | none => none
      | some ts => some (t :: ts)

/-- Exact overlap of two events in milliseconds,
`LEAST(e1.end_date, e2.end_date) - GREATEST(e1.start_date, e2.start_date)`.
The SQL value `overlap_minutes` is this amount divided by 60000 (fractional
minutes); the scaling preserves sign and order, so the embedding carries the
millisecond numerator. -/
def overlapMs (a b : Event) : Int :=
  min a.end_date b.end_date - max a.start_date b.start_date

/-- JS `Math.round(ms / 60000)`: round-half-up of the fractional minute count,
computed exactly as `⌊(ms + 30000) / 60000⌋`. -/
def jsRoundMinutes (ms : Int) : Int := Int.fdiv (ms + 30000) 60000

/-- Descending order on pairs by exact overlap (`ORDER BY overlap_minutes
DESC`; the SQL fixes no tie-break, and the embedding realises the order with a
stable sort over the join order). -/
def byOverlapDesc (p q : Event × Event) : Prop :=
  overlapMs q.1 q.2 ≤ overlapMs p.1 p.2

instance : DecidableRel byOverlapDesc := fun p q => inferInstanceAs (Decidable (_ ≤ _))

/-- The `findOverlappingEvents` query: every ordered pair of rows with
`e1.event_id < e2.event_id` whose intervals intersect
(`e1.start_date < e2.end_date AND e2.start_date < e1.end_date`), kept when the
exact overlap is positive, sorted by exact overlap descending, and reported
with `Math.round`ed overlap minutes. -/
def findOverlappingEvents (repo : Repo) : List (Event × Event × Int) :=
  let pairs := (repo ×ˢ repo).filter (fun p =>
    strLt p.1.event_id p.2.event_id &&
    decide (p.1.start_date < p.2.end_date) && decide (p.2.start_date < p.1.end_date))
  let rows := pairs.filter (fun p => decide (0 < overlapMs p.1 p.2))
  (List.insertionSort byOverlapDesc rows).map
    (fun p => (p.1, p.2, jsRoundMinutes (overlapMs p.1 p.2)))

/-- Gap between two events in milliseconds (`e2.start_date - e1.end_date`);
the SQL `gap_minutes` is this divided by 60000. -/
def gapMs (a b : Event) : Int := b.start_date - a.end_date

/-- Descending order on pairs by exact gap (`ORDER BY gap_minutes DESC`). -/
def byGapDesc (p q : Event × Event) : Prop := gapMs q.1 q.2 ≤ gapMs p.1 p.2

instance : DecidableRel byGapDesc := fun p q => inferInstanceAs (Decidable (_ ≤ _))

/-- The result shape of `findTemporalGaps`. -/
structure GapResult where
  startOfGap : Int
  endOfGap : Int
  durationMinutes : Int
  precedingEvent : Event
  succeedingEvent : Event
deriving DecidableEq, Repr

/-- The `findTemporalGaps(startDate, endDate)` query: restrict to events with
`start_date >= $1 AND end_date <= $2`; join each pair `(e1, e2)` with
`e2.start_date > e1.end_date` such that no restricted event starts strictly
between `e1.end_date` and `e2.start_date`; keep positive gaps, order by gap
descending, and return the first with `Math.round`ed minutes (`null` when no
row survives).  Note the join performs no interval merging: `e1` need not be
the event that actually covers latest before the gap. -/
def findTemporalGaps (repo : Repo) (rangeStart rangeEnd : Int) : Option GapResult :=
  let contained := repo.filter (fun e =>
    decide (rangeStart ≤ e.start_date) && decide (e.end_date ≤ rangeEnd))
  let gapRows := (contained ×ˢ contained).filter (fun p =>
    decide (p.1.end_date < p.2.start_date) &&
    !(contained.any (fun e3 =>
      decide (p.1.end_date < e3.start_date) && decide (e3.start_date < p.2.start_date))))
  let pos := gapRows.filter (fun p => decide (0 < gapMs p.1 p.2))
  match List.insertionSort byGapDesc pos with
  | [] => none
  | p :: _ =>
    some ⟨p.1.end_date, p.2.start_date, jsRoundMinutes (gapMs p.1 p.2), p.1, p.2⟩

/-- A row of the recursive CTE in `findShortestPath`: the current event, the
id array accumulated along the descent, and the running duration total. -/
structure PathRow where
  cur : Event
  path : List Str
  total : Int
deriving DecidableEq, Repr

/-- Generation `n` of the recursive CTE `event_graph`: generation 0 selects
the rows with `event_id = $1` (seeding `path = ARRAY[event_id]` and
`total_duration = duration_minutes`); generation `n+1` joins generation `n`
against the children of its current event, skipping any child whose id is
already on the path (`WHERE NOT he.event_id = ANY(eg.path)`). -/
def cteGen (repo : Repo) (src : Str) : Nat → List PathRow
  | 0 => (repo.filter (fun e => e.event_id = src)).map
      (fun e => ⟨e, [e.event_id], e.duration_minutes⟩)
  | n + 1 => (cteGen repo src n).flatMap (fun r =>
      (repo.filter (fun he =>
        he.parent_event_id = some r.cur.event_id && !(r.path.contains he.event_id))).map
        (fun he => ⟨he, r.path ++ [he.event_id], r.total + he.duration_minutes⟩))

/-- All rows of the recursive CTE.  Every row of generation `n` carries a
duplicate-free path of length `n+1` drawn from the repository ids, so when the
ids are distinct each generation past `repo.length - 1` is empty
(`cteGen_eq_nil` below) and this union is the CTE fixpoint. -/
def cteAll (repo : Repo) (src : Str) : List PathRow :=
  (List.range (repo.length + 1)).flatMap (cteGen repo src)

/-- Ascending order on CTE rows (`ORDER BY total_duration ASC`). -/
def byTotalAsc (a b : PathRow) : Prop := a.total ≤ b.total

instance : DecidableRel byTotalAsc := fun a b => inferInstanceAs (Decidable (_ ≤ _))

/-- The `findShortestPath(sourceEventId, targetEventId)` query: among CTE rows
whose current event is the target, take the one with least total duration
(`ORDER BY total_duration ASC LIMIT 1`), then resolve the id array back to
event rows (the JS re-fetches the events of `pathData.path` and maps the ids
through the resulting lookup table; with distinct ids every lookup resolves,
so the `filterMap` drops nothing). -/
def findShortestPath (repo : Repo) (src tgt : Str) : Option (List Event × Int) :=
  let rows := (cteAll repo src).filter (fun r => r.cur.event_id = tgt)
  match List.insertionSort byTotalAsc rows with
  | [] => none
  | r :: _ => some (r.path.filterMap (findEventById repo), r.total)

/-- The `InsightsService.getEventInfluence` response shape. -/
structure InfluenceResult where
  shortestPath : List Event
  totalDurationMinutes : Int
  message : Str
deriving DecidableEq, Repr

/-- `getEventInfluence`: a `null` path becomes an empty path with zero total
duration and the no-path message. -/
def getEventInfluence (repo : Repo) (src tgt : Str) : InfluenceResult :=
  match findShortestPath repo src tgt with
  | none => ⟨[], 0, "No temporal path found from source to target event.".data⟩
  | some (p, t) => ⟨p, t, "Shortest temporal path found from source to target event.".data⟩

/-- Job lifecycle states of the `ingestion_jobs` table. -/
inductive JobStatus where
  | PENDING
  | PROCESSING
  | COMPLETED
  | FAILED
deriving DecidableEq, Repr

/-- An `ingestion_jobs` row (the columns the core mutates). -/
structure IngestionJob where
  status : JobStatus
  processed_lines : Nat
  error_lines : Nat
  total_lines : Nat
  errors : List Str
  has_end_time : Bool
deriving DecidableEq, Repr

/-- `IngestionJob.create`: a fresh `PENDING` job with the pre-counted total
line count and zeroed counters. -/
def createJob (totalLines : Nat) : IngestionJob :=
  ⟨.PENDING, 0, 0, totalLines, [], false⟩

/-- `IngestionJob.addError`: append the message and increment `error_lines`. -/
def addError (j : IngestionJob) (msg : Str) : IngestionJob :=
  { j with errors := j.errors ++ [msg], error_lines := j.error_lines + 1 }

/-- `IngestionJob.incrementProcessedLines`. -/
def incrementProcessedLines (j : IngestionJob) : IngestionJob :=
  { j with processed_lines := j.processed_lines + 1 }

/-- One iteration of the `processFile` loop on a non-skipped line: parse, and
either upsert the event and bump `processed_lines`, or record
`"Line {n}: {message}"` via `addError`.  A line that is empty after trimming
is skipped entirely. -/
def processLine (repo : Repo) (j : IngestionJob) (n : Nat) (line : Str) (now : Int) :
    Repo × IngestionJob :=
  if trimChars line = [] then (repo, j)
  else
    match parseEventLine line n with
    | .ok d => (create repo d now, incrementProcessedLines j)
    | .error e => (repo, addError j ("Line ".data ++ natChars n ++ ": ".data ++ e.message))

/-- The `for await (const line of rl)` loop with its 1-based line counter. -/
def processLines (repo : Repo) (j : IngestionJob) (n : Nat) (now : Int) :
    List Str → Repo × IngestionJob
  | [] => (repo, j)
  | l :: ls =>
    let rj := processLine repo j n l now
    processLines rj.1 rj.2 (n + 1) now ls

/-- `IngestionService.processFile`: set the job `PROCESSING`, run the loop
over every line, then mark it `COMPLETED` with an end time.  Per-line failures
never abort the loop. -/
def processFile (repo : Repo) (j : IngestionJob) (lines : List Str) (now : Int) :
    Repo × IngestionJob :=
  let j1 : IngestionJob := { j with status := .PROCESSING }
  let rj := processLines repo j1 1 now lines
  (rj.1, { rj.2 with status := .COMPLETED, has_end_time := true })

/-- `startIngestion` followed by the processing task: count the lines, create
the job with that total, and process the file. -/
def ingestFile (repo : Repo) (lines : List Str) (now : Int) : Repo × IngestionJob :=
  processFile repo (createJob lines.length) lines now

/-- Number of lines skipped as blank (empty after trimming). -/
def countBlank (lines : List Str) : Nat :=
  (lines.filter (fun l => trimChars l = [])).length

/-- Number of non-blank lines the validator rejects (rejection does not depend
on the line number, which only enters the success record). -/
def countInvalid (lines : List Str) : Nat :=
  (lines.filter (fun l => !(trimChars l = []) && !(parseEventCore l).isOk)).length

/-- Number of non-blank lines the validator accepts. -/
def countValid (lines : List Str) : Nat :=
  (lines.filter (fun l => !(trimChars l = []) && (parseEventCore l).isOk)).length

/-- The error messages the loop accumulates, starting at line number `n`: one
message per invalid non-blank line, prefixed with its 1-based number. -/
def expectedErrors (n : Nat) : List Str → List Str
  | [] => []
  | l :: ls =>
    (if trimChars l = [] then []
     else
       match parseEventCore l with
       | .ok _ => []
       | .error e => ["Line ".data ++ natChars n ++ ": ".data ++ e.message]) ++
    expectedErrors (n + 1) ls

/-- The child-step relation of the parent/child graph: `stepR repo x y` holds
when some repository row `y` has `x` as parent, i.e. the CTE can descend from
`x` to `y`. -/
def stepR (repo : Repo) (x y : Str) : Prop :=
  ∃ e ∈ repo, e.event_id = y ∧ e.parent_event_id = some x

/-- `y` is reachable from `x` by descending parent → child edges (so `y` is
`x` itself or a descendant). -/
def Reaches (repo : Repo) (x y : Str) : Prop :=
  Relation.ReflTransGen (stepR repo) x y

/-- The rows the recursive CTE can derive: a base row at the source, or an
extension of a derived row along a child edge not yet on the path. -/
inductive Chain (repo : Repo) (src : Str) : PathRow → Prop where
  | base (e : Event) (he : e ∈ repo) (hid : e.event_id = src) :
      Chain repo src ⟨e, [e.event_id], e.duration_minutes⟩
  | step (r : PathRow) (e : Event) (hc : Chain repo src r) (he : e ∈ repo)
      (hp : e.parent_event_id = some r.cur.event_id) (hn : e.event_id ∉ r.path) :
      Chain repo src ⟨e, r.path ++ [e.event_id], r.total + e.duration_minutes⟩

/-- Sum of `duration_minutes` over a list of events. -/
def sumDurations (es : List Event) : Int :=
  (es.map (fun e => e.duration_minutes)).sum

/-- `es` is a descent path in the repository: consecutive events are linked by
parent → child edges and every event is a repository row. -/
def DescentPath (repo : Repo) (es : List Event) : Prop :=
  (∀ e ∈ es, e ∈ repo) ∧
  List.Chain' (fun a b => b.parent_event_id = some a.event_id) es

instance : IsTotal (Event × Event) byOverlapDesc :=
  ⟨fun p q => le_total (overlapMs q.1 q.2) (overlapMs p.1 p.2)⟩

instance : IsTrans (Event × Event) byOverlapDesc :=
  ⟨fun _ _ _ h1 h2 => le_trans h2 h1⟩

instance : IsTotal PathRow byTotalAsc := ⟨fun a b => le_total a.total b.total⟩

instance : IsTrans PathRow byTotalAsc := ⟨fun _ _ _ h1 h2 => le_trans h1 h2⟩

/-- Convenience constructor for concrete repository rows used in the theorems
below: id, name, start, end, duration, parent. -/
def mkEvent (id name : Str) (s e dur : Int) (par : Option Str) : Event :=
  ⟨⟨id, name, [], s, e, dur, par, 0, 0⟩, 0⟩

/-- Concrete repository refuting merge-based gap detection: `gapB` covers the
span right after `gapA` ends, yet the pairwise self-join still pairs `gapA`
with `gapC`. -/
def gapA : Event := mkEvent "a".data "A".data 0 600000 10 none

/-- Long covering event of the gap counterexample (runs 2 min – 50 min). -/
def gapB : Event := mkEvent "b".data "B".data 120000 3000000 48 none

/-- Late event of the gap counterexample (starts at 60 min). -/
def gapC : Event := mkEvent "c".data "C".data 3600000 4200000 10 none

/-- The two events of the overlap rounding counterexample: they overlap for 30
seconds, half a minute. -/
def ovlX : Event := mkEvent "x".data "X".data 0 630000 10 none

/-- Second event of the overlap rounding counterexample. -/
def ovlY : Event := mkEvent "y".data "Y".data 600000 1200000 10 none

/-- First member of a two-event parent cycle (`a`'s parent is `b`). -/
def cycA : Event := mkEvent "a".data "A".data 0 60000 1 (some "b".data)

/-- Second member of the parent cycle (`b`'s parent is `a`). -/
def cycB : Event := mkEvent "b".data "B".data 0 60000 2 (some "a".data)

/-- The corrupted repository whose parent pointers form a cycle. -/
def cycRepo : Repo := [cycA, cycB]

/-- Root of a concrete three-event chain `a → b → c`. -/
def chainA : Event := mkEvent "a".data "A".data 0 60000 60 none

/-- Middle event of the chain. -/
def chainB : Event := mkEvent "b".data "B".data 0 60000 480 (some "a".data)

/-- Leaf event of the chain. -/
def chainC : Event := mkEvent "c".data "C".data 0 60000 960 (some "b".data)

/-- The chain repository. -/
def chainRepo : Repo := [chainA, chainB, chainC]

/-- A depth rank for the chain repository, witnessing that its parent/child
graph is acyclic. -/
def chainRank (s : Str) : Nat :=
  if s = "a".data then 0 else if s = "b".data then 1 else 2

/-- A single parentless event, for the degenerate source-equals-target path
query. -/
def soloE : Event := mkEvent "s".data "S".data 0 120000 2 none

/-- Single-event repository. -/
def soloRepo : Repo := [soloE]

/-- Rank function for the single-event repository. -/
def soloRank (_ : Str) : Nat := 0

/-- Raw content of the `i`-th pipe-delimited field of a line. -/
def rawField (line : Str) (i : Nat) : Str := (splitOnChar '|' line).getD i []

/-- An existing repository row for the upsert witness. -/
def c8Old : Event := mkEvent "u".data "Old".data 0 60000 1 none

/-- Replacement data carrying the same id and different fields (in particular
a changed research value). -/
def c8New : EventData :=
  ⟨"u".data, "New".data, "changed".data, 60000, 180000, 2, some "p".data, 9, 3⟩

/-- A line with eight pipe-delimited fields whose first seven are valid. -/
def c4Line : Str :=
  "aaaaaaaa-1111-2222-3333-444455556666|Name|1970-01-01T00:00:00Z|1970-01-01T01:00:00Z|NULL|5|desc|extra".data

/-- A valid line whose research value field is the non-integer numeral 4.9. -/
def c7LineFrac : Str :=
  "aaaaaaaa-1111-2222-3333-444455556666|Name|1970-01-01T00:00:00Z|1970-01-01T01:00:00Z|NULL|4.9|desc".data

/-- A valid line whose research value field is 42abc. -/
def c7LineMix : Str :=
  "aaaaaaaa-1111-2222-3333-444455556666|Name|1970-01-01T00:00:00Z|1970-01-01T01:00:00Z|NULL|42abc|desc".data

/-- A line whose name field consists of whitespace only. -/
def c9LineBlankName : Str :=
  "aaaaaaaa-1111-2222-3333-444455556666|   |1970-01-01T00:00:00Z|1970-01-01T01:00:00Z|NULL|5|desc".data

/-- A fully valid line, name field padded with whitespace. -/
def c9LineGood : Str :=
  "aaaaaaaa-1111-2222-3333-444455556666| Name |1970-01-01T00:00:00Z|1970-01-01T01:00:00Z|NULL|5|desc".data

/-! Theorems.  Helper lemmas come first, then one theorem per claim (with its
counterexample and witness companions where required). -/

theorem except_map_error_iff {α β ε : Type} (f : α → β) (x : Except ε α) (e : ε) :
    x.map f = .error e ↔ x = .error e := by
  cases x <;> simp [Except.map]

theorem except_map_ok_iff {α β ε : Type} (f : α → β) (x : Except ε α) (b : β) :
    x.map f = .ok b ↔ ∃ a, x = .ok a ∧ b = f a := by
  cases x <;> simp [Except.map, eq_comm]

theorem parseEventCore_not_insufficient (line : Str)
    (h : ¬ (splitOnChar '|' line).length < 7) (a : Nat) :
    parseEventCore line ≠ .error (.insufficientFields 7 a) := by
  intro hEq
  simp only [parseEventCore, if_neg h] at hEq
  split at hEq <;> try simp_all
  split at hEq <;> try simp_all
  split at hEq <;> try simp_all
  split at hEq <;> try simp_all
  split at hEq <;> try simp_all
  split at hEq <;> try simp_all
  split at hEq <;> simp_all

/-- C4 (amended): `parseEventLine` fails with the "insufficient fields" error,
naming the expected count 7 and the actual count, exactly when there are
FEWER than seven pipe-delimited fields; a line with more than seven fields is
not rejected for its field count (the extra fields are ignored). -/
theorem C4_insufficient_fields_iff (line : Str) (n : Nat) :
    ((∃ a, parseEventLine line n = .error (.insufficientFields 7 a)) ↔
      (splitOnChar '|' line).length < 7) ∧
    ((splitOnChar '|' line).length < 7 →
      parseEventLine line n = .error (.insufficientFields 7 (splitOnChar '|' line).length)) := by
  constructor
  · constructor
    · rintro ⟨a, hEq⟩
      rw [parseEventLine, except_map_error_iff] at hEq
      by_contra h
      exact parseEventCore_not_insufficient line h a hEq
    · intro h
      refine ⟨(splitOnChar '|' line).length, ?_⟩
      rw [parseEventLine, except_map_error_iff]
      simp [parseEventCore, if_pos h]
  · intro h
    rw [parseEventLine, except_map_error_iff]
    simp [parseEventCore, if_pos h]

/-- C4 (counterexample): a line with eight pipe-delimited fields is accepted,
although the claim requires every line with more than 7 fields to be
rejected. -/
theorem C4_counterexample :
    (splitOnChar '|' c4Line).length = 8 ∧ (parseEventLine c4Line 1).isOk = true := by
  constructor <;> decide

/-- C7 (counterexample): the research value fields 4.9 and 42abc do not cause
rejection; `parseInt` truncates them to 4 and 42 and the lines are accepted,
contradicting the claim that non-integer numerals fail. -/
theorem C7_counterexample :
    (parseEventLine c7LineFrac 1).toOption.map (fun d => d.research_value) = some 4 ∧
    (parseEventLine c7LineMix 1).toOption.map (fun d => d.research_value) = some 42 := by
  constructor <;> decide

/-- C9 (counterexample): a line whose name field is whitespace-only is
accepted, and the resulting event name is empty — there is no non-emptiness
validation of the name. -/
theorem C9_counterexample :
    (parseEventLine c9LineBlankName 1).toOption.map (fun d => d.event_name) = some [] := by
  decide

/-- C7 (amended): on a line that passes every check before the research value
(seven or more fields, valid id, valid ordered dates, acceptable parent
field), `parseEventLine` rejects exactly when `parseInt` finds no leading
integer or the parsed value is negative; when `parseInt` extracts a
non-negative `k` — truncating trailing garbage such as `.9` or `abc` — the
line is accepted with research value `k`. -/
theorem C7_research_value_behavior (line : Str) (n : Nat)
    (h7 : ¬ (splitOnChar '|' line).length < 7)
    (hid : validateUUID (rawField line 0) = true)
    (hsd : validateISODate (rawField line 2) = true)
    (hed : validateISODate (rawField line 3) = true)
    (hord : ¬ ((parseISOms (rawField line 3)).getD 0 ≤ (parseISOms (rawField line 2)).getD 0))
    (hpar : (!(rawField line 4).isEmpty && !(upperChars (rawField line 4) == "NULL".data) &&
      !validateUUID (rawField line 4)) = false) :
    ((∃ e, parseEventLine line n = .error e) ↔
      jsParseInt (rawField line 5) = none ∨
        ∃ k, jsParseInt (rawField line 5) = some k ∧ k < 0) ∧
    (∀ k, jsParseInt (rawField line 5) = some k → 0 ≤ k →
      (parseEventLine line n).toOption.map (fun d => d.research_value) = some k) := by
  simp only [rawField] at hid hsd hed hord hpar ⊢
  constructor
  · rw [parseEventLine]
    constructor
    · rintro ⟨e, hEq⟩
      rw [except_map_error_iff] at hEq
      rw [parseEventCore, if_neg h7] at hEq
      simp only [hid, hsd, hed, Bool.not_true, Bool.false_eq_true, if_false,
        if_neg hord, hpar] at hEq
      rcases hrv : jsParseInt ((splitOnChar '|' line).getD 5 []) with _ | k
      · exact Or.inl rfl
      · rw [hrv] at hEq
        by_cases hk : k < 0
        · exact Or.inr ⟨k, rfl, hk⟩
        · simp only [if_neg hk] at hEq
          exact absurd hEq (by simp)
    · rintro (hrv | ⟨k, hrv, hk⟩)
      · refine ⟨.invalidResearchValue ((splitOnChar '|' line).getD 5 []), ?_⟩
        rw [except_map_error_iff, parseEventCore, if_neg h7]
        simp only [hid, hsd, hed, Bool.not_true, Bool.false_eq_true, if_false,
          if_neg hord, hpar, hrv]
      · refine ⟨.negativeResearchValue k, ?_⟩
        rw [except_map_error_iff, parseEventCore, if_neg h7]
        simp only [hid, hsd, hed, Bool.not_true, Bool.false_eq_true, if_false,
          if_neg hord, hpar, hrv, if_pos hk]
  · intro k hrv hk
    rw [parseEventLine]
    rw [parseEventCore, if_neg h7]
    simp only [hid, hsd, hed, Bool.not_true, Bool.false_eq_true, if_false, if_neg hord, hpar,
      hrv, if_neg (not_lt.mpr hk)]
    simp [Except.map, Except.toOption]

/-- C9 (amended): every successfully parsed line yields an event whose name is
the whitespace-trimmed raw name field — with no non-emptiness check, so the
name may be empty. -/
theorem C9_name_is_trimmed_field (line : Str) (n : Nat) (d : EventData)
    (h : parseEventLine line n = .ok d) :
    d.event_name = trimChars (rawField line 1) := by
  rw [parseEventLine, except_map_ok_iff] at h
  obtain ⟨d0, hCore, hd⟩ := h
  rw [rawField]
  subst hd
  rw [parseEventCore] at hCore
  simp only [] at hCore
  repeat' split at hCore
  all_goals
    first
      | exact Except.noConfusion hCore
      | (injection hCore with h2; subst h2; rfl)

/-- C7 (witness): the research-value behavior applied to the concrete line
with field 4.9, whose hypotheses all hold by computation. -/
theorem C7_witness :
    ((∃ e, parseEventLine c7LineFrac 1 = .error e) ↔
      jsParseInt (rawField c7LineFrac 5) = none ∨
        ∃ k, jsParseInt (rawField c7LineFrac 5) = some k ∧ k < 0) ∧
    (∀ k, jsParseInt (rawField c7LineFrac 5) = some k → 0 ≤ k →
      (parseEventLine c7LineFrac 1).toOption.map (fun d => d.research_value) = some k) :=
  C7_research_value_behavior c7LineFrac 1 (by decide) (by decide) (by decide) (by decide)
    (by decide) (by decide)

/-- C9 (witness): the trimmed-name theorem applied to a concrete valid line
whose name field is padded with whitespace. -/
theorem C9_witness :
    ∃ d, parseEventLine c9LineGood 1 = .ok d ∧
      d.event_name = trimChars (rawField c9LineGood 1) := by
  cases hE : parseEventLine c9LineGood 1 with
  | error e =>
    have hOk : (parseEventLine c9LineGood 1).isOk = true := by decide
    rw [hE] at hOk
    exact absurd hOk (by simp [Except.isOk, Except.toBool])
  | ok d => exact ⟨d, rfl, C9_name_is_trimmed_field c9LineGood 1 d hE⟩

theorem parseEventLine_of_core_ok (l : Str) (n : Nat) (d : EventData)
    (h : parseEventCore l = .ok d) :
    parseEventLine l n = .ok { d with line_number := n } := by
  rw [parseEventLine, h]
  rfl

theorem parseEventLine_of_core_error (l : Str) (n : Nat) (e : ParseError)
    (h : parseEventCore l = .error e) : parseEventLine l n = .error e := by
  rw [parseEventLine, h]
  rfl

theorem processLines_spec (now : Int) (lines : List Str) :
    ∀ (repo : Repo) (j : IngestionJob) (n : Nat),
      (processLines repo j n now lines).2 =
        { j with
          processed_lines := j.processed_lines + countValid lines,
          error_lines := j.error_lines + countInvalid lines,
          errors := j.errors ++ expectedErrors n lines } := by
  induction lines with
  | nil =>
    intro repo j n
    cases j
    simp [processLines, countValid, countInvalid, expectedErrors]
  | cons l ls ih =>
    intro repo j n
    rw [processLines]
    by_cases hb : trimChars l = []
    · have hpl : processLine repo j n l now = (repo, j) := by
        rw [processLine, if_pos hb]
      rw [hpl, ih]
      cases j
      simp [countValid, countInvalid, expectedErrors, List.filter_cons, hb]
    · cases hp : parseEventCore l with
      | ok d =>
        have hpl : processLine repo j n l now =
            (create repo { d with line_number := n } now, incrementProcessedLines j) := by
          rw [processLine, if_neg hb, parseEventLine_of_core_ok l n d hp]
        rw [hpl, ih]
        cases j
        simp [countValid, countInvalid, expectedErrors, List.filter_cons, hb, hp,
          incrementProcessedLines, Except.isOk, Except.toBool]
        omega
      | error e =>
        have hpl : processLine repo j n l now =
            (repo, addError j ("Line ".data ++ natChars n ++ ": ".data ++ e.message)) := by
          rw [processLine, if_neg hb, parseEventLine_of_core_error l n e hp]
        rw [hpl, ih]
        cases j
        simp [countValid, countInvalid, expectedErrors, List.filter_cons, hb, hp, addError,
          Except.isOk, Except.toBool]
        omega

theorem counts_partition (lines : List Str) :
    countValid lines + countInvalid lines + countBlank lines = lines.length := by
  induction lines with
  | nil => simp [countValid, countInvalid, countBlank]
  | cons l ls ih =>
    by_cases hb : trimChars l = [] <;>
      cases hp : (parseEventCore l).isOk <;>
        simp [countValid, countInvalid, countBlank, List.filter_cons, hb, hp] at ih ⊢ <;>
          omega

/-- C5 (amended): ingesting a file of `N` lines of which `B` are blank
(skipped with no counter impact) and `K` of the non-blank fail validation
yields `processedLines = N - K - B` (that is, the count of valid non-blank
lines), `errorLines = K`, `totalLines = N`, final status COMPLETED with an end
time, and exactly one recorded message per invalid line, prefixed with its
1-based line number; no bad line aborts the job. -/
theorem C5_job_summary (repo : Repo) (lines : List Str) (now : Int) :
    (ingestFile repo lines now).2 =
      ⟨.COMPLETED, countValid lines, countInvalid lines, lines.length,
        expectedErrors 1 lines, true⟩ ∧
    countValid lines + countInvalid lines + countBlank lines = lines.length := by
  constructor
  · rw [ingestFile, processFile]
    simp only [createJob]
    rw [processLines_spec]
    simp
  · exact counts_partition lines

/-- C5 (counterexample): a file consisting of one whitespace-only line ends
with `processedLines = 0` and `errorLines = 0`, so
`processedLines + errorLines` differs from the claimed `N - K + K = N = 1`:
blank lines are skipped without any counter impact, refuting
`processedLines = N - K` as stated. -/
theorem C5_counterexample :
    (ingestFile [] ["   ".data] 0).2.processed_lines = 0 ∧
    (ingestFile [] ["   ".data] 0).2.error_lines = 0 ∧
    (["   ".data] : List Str).length = 1 ∧
    (ingestFile [] ["   ".data] 0).2.processed_lines +
      (ingestFile [] ["   ".data] 0).2.error_lines ≠ (["   ".data] : List Str).length := by
  refine ⟨?_, ?_, ?_, ?_⟩ <;> decide

theorem create_filter_eq (d : EventData) (now : Int) :
    ∀ repo : Repo, (repo.map (fun e => e.event_id)).Nodup →
      (∃ old ∈ repo, old.event_id = d.event_id) →
      (repo.map (fun e => if e.event_id = d.event_id then (⟨d, now⟩ : Event) else e)).filter
        (fun e => e.event_id = d.event_id) = [⟨d, now⟩] := by
  intro repo
  induction repo with
  | nil => rintro _ ⟨old, hold, _⟩; exact absurd hold (List.not_mem_nil old)
  | cons x xs ih =>
    intro hN hMem
    rw [List.map_cons, List.nodup_cons] at hN
    by_cases hxd : x.event_id = d.event_id
    · rw [List.map_cons, if_pos hxd, List.filter_cons]
      have hTail : (xs.map (fun e =>
          if e.event_id = d.event_id then (⟨d, now⟩ : Event) else e)).filter
          (fun e => e.event_id = d.event_id) = [] := by
        rw [List.filter_eq_nil_iff]
        intro e' he'
        rw [List.mem_map] at he'
        obtain ⟨e, he, hrepl⟩ := he'
        have hne : e.event_id ≠ d.event_id := by
          intro hEq
          exact hN.1 (hxd ▸ hEq ▸ List.mem_map_of_mem (fun e => e.event_id) he)
        rw [if_neg hne] at hrepl
        subst hrepl
        simp [hne]
      simp [hTail]
    · rw [List.map_cons, if_neg hxd, List.filter_cons, if_neg (by simp [hxd])]
      refine ih hN.2 ?_
      obtain ⟨old, hold, holdid⟩ := hMem
      rcases List.mem_cons.mp hold with h | h
      · exact absurd (h ▸ holdid) hxd
      · exact ⟨old, h, holdid⟩

/-- C8: upserting data whose id already exists replaces every stored field of
that row with the new values and stamps the modification time, leaves the id
sequence of the repository unchanged (so exactly one record with that id
remains and no duplicate is created), and leaves every other row in place. -/
theorem C8_upsert_idempotent (repo : Repo) (d : EventData) (now : Int)
    (hN : (repo.map (fun e => e.event_id)).Nodup)
    (hMem : ∃ old ∈ repo, old.event_id = d.event_id) :
    (create repo d now).map (fun e => e.event_id) = repo.map (fun e => e.event_id) ∧
    (create repo d now).filter (fun e => e.event_id = d.event_id) = [⟨d, now⟩] ∧
    ∀ e ∈ repo, e.event_id ≠ d.event_id → e ∈ create repo d now := by
  have hAny : repo.any (fun e => decide (e.event_id = d.event_id)) = true := by
    obtain ⟨old, hold, holdid⟩ := hMem
    exact List.any_eq_true.mpr ⟨old, hold, by simp [holdid]⟩
  rw [create, if_pos hAny]
  refine ⟨?_, create_filter_eq d now repo hN hMem, ?_⟩
  · rw [List.map_map]
    refine List.map_congr_left ?_
    intro e _
    by_cases h : e.event_id = d.event_id
    · simp [h]
    · simp [h]
  · intro e he hne
    have h2 := List.mem_map_of_mem
      (fun e => if e.event_id = d.event_id then (⟨d, now⟩ : Event) else e) he
    simp only [if_neg hne] at h2
    exact h2

/-- C8 (witness): upserting changed data for the single stored id replaces the
row and keeps exactly one record. -/
theorem C8_witness :
    (create [c8Old] c8New 5).map (fun e => e.event_id) = [c8Old].map (fun e => e.event_id) ∧
    (create [c8Old] c8New 5).filter (fun e => e.event_id = c8New.event_id) = [⟨c8New, 5⟩] ∧
    ∀ e ∈ [c8Old], e.event_id ≠ c8New.event_id → e ∈ create [c8Old] c8New 5 :=
  C8_upsert_idempotent [c8Old] c8New 5 (by decide) ⟨c8Old, by decide, by decide⟩

/-- C2 (code_bug evaluation): on the repository
`gapA = [0 min, 10 min]`, `gapB = [2 min, 50 min]`, `gapC = [60 min, 70 min]`
with query range `[0, 70 min]`, the pairwise self-join reports the gap from
`gapA.end = 10 min` to `gapC.start = 60 min` (50 minutes, preceding event
`gapA`), even though `gapB` covers the reported span up to minute 50: the
code performs no interval merging, so a "gap" is reported inside a covered
span, and the preceding event is misattributed.  The merge-based algorithm of
the specification would report the 10-minute gap from `gapB.end` to
`gapC.start` with preceding event `gapB`. -/
theorem C2_pairwise_gap_misattribution :
    findTemporalGaps [gapA, gapB, gapC] 0 4200000 =
      some ⟨600000, 3600000, 50, gapA, gapC⟩ ∧
    gapB.start_date < 600000 ∧ 600000 < gapB.end_date ∧ gapB.end_date < 3600000 := by
  refine ⟨?_, ?_, ?_, ?_⟩ <;> decide

/-- C3 (counterexample): two events overlapping for 30 seconds (half a
minute).  The floor of the overlap in minutes is 0, so the claim requires the
pair to be excluded; the code includes it, reporting `Math.round(0.5) = 1`. -/
theorem C3_counterexample :
    findOverlappingEvents [ovlX, ovlY] = [(ovlX, ovlY, 1)] ∧
    overlapMs ovlX ovlY = 30000 ∧
    (⌊(30000 : ℚ) / 60000⌋ = 0) := by
  refine ⟨by decide, by decide, by norm_num⟩

theorem overlap_pos_intersect (a b : Event) (h : 0 < overlapMs a b) :
    a.start_date < b.end_date ∧ b.start_date < a.end_date := by
  rw [overlapMs, Int.sub_pos] at h
  constructor
  · exact lt_of_le_of_lt (le_max_left _ _) (lt_of_lt_of_le h (min_le_right _ _))
  · exact lt_of_le_of_lt (le_max_right _ _) (lt_of_lt_of_le h (min_le_left _ _))

/-- C3 (amended): `findOverlaps` reports an ordered pair (first component the
smaller id) exactly when both events are stored, the first id compares below
the second, and the exact intersection length is positive — including
sub-minute overlaps whose floor is 0; the reported `overlapMinutes` is the
round-half-up of the exact fractional minute count (`Math.round`, not the
floor), and the rows are sorted by exact overlap descending (the SQL fixes no
tie order). -/
theorem C3_overlaps_characterization (repo : Repo) :
    (∀ a b : Event, (∃ m, (a, b, m) ∈ findOverlappingEvents repo) ↔
      (a ∈ repo ∧ b ∈ repo ∧ strLt a.event_id b.event_id = true ∧ 0 < overlapMs a b)) ∧
    (∀ a b m, (a, b, m) ∈ findOverlappingEvents repo → m = jsRoundMinutes (overlapMs a b)) ∧
    List.Sorted (fun r1 r2 : Event × Event × Int =>
      overlapMs r2.1 r2.2.1 ≤ overlapMs r1.1 r1.2.1) (findOverlappingEvents repo) := by
  have hMem : ∀ a b : Event, ∀ m : Int, ((a, b, m) ∈ findOverlappingEvents repo ↔
      (a ∈ repo ∧ b ∈ repo ∧ strLt a.event_id b.event_id = true ∧ 0 < overlapMs a b ∧
        m = jsRoundMinutes (overlapMs a b))) := by
    intro a b m
    rw [findOverlappingEvents]
    rw [List.mem_map]
    constructor
    · rintro ⟨⟨p1, p2⟩, hp, heq⟩
      simp only [Prod.mk.injEq] at heq
      obtain ⟨h1, h2, hm⟩ := heq
      subst h1; subst h2
      rw [(List.perm_insertionSort byOverlapDesc _).mem_iff, List.mem_filter,
        List.mem_filter, List.mem_product] at hp
      obtain ⟨⟨⟨ha, hb⟩, hcond⟩, hov⟩ := hp
      simp only [Bool.and_eq_true, decide_eq_true_eq] at hcond hov
      exact ⟨ha, hb, hcond.1.1, hov, hm.symm⟩
    · rintro ⟨h1, h2, hlt, hov, hm⟩
      refine ⟨(a, b), ?_, by rw [hm]⟩
      rw [(List.perm_insertionSort byOverlapDesc _).mem_iff, List.mem_filter,
        List.mem_filter, List.mem_product]
      refine ⟨⟨⟨h1, h2⟩, ?_⟩, by simp [hov]⟩
      simp only [Bool.and_eq_true, decide_eq_true_eq]
      exact ⟨⟨hlt, (overlap_pos_intersect a b hov).1⟩, (overlap_pos_intersect a b hov).2⟩
  refine ⟨?_, ?_, ?_⟩
  · intro a b
    constructor
    · rintro ⟨m, hm⟩
      have := (hMem a b m).mp hm
      exact ⟨this.1, this.2.1, this.2.2.1, this.2.2.2.1⟩
    · rintro ⟨h1, h2, hlt, hov⟩
      exact ⟨jsRoundMinutes (overlapMs a b), (hMem a b _).mpr ⟨h1, h2, hlt, hov, rfl⟩⟩
  · intro a b m hm
    exact ((hMem a b m).mp hm).2.2.2.2
  · rw [findOverlappingEvents]
    refine List.Pairwise.map _ ?_ (List.sorted_insertionSort byOverlapDesc _)
    intro p q h
    exact h

/-- C1 (code_bug evaluation): on the two-event repository whose parent
pointers form a cycle (`a`'s parent is `b` and `b`'s parent is `a`),
`buildTreeHierarchy("a")` exhausts every amount of fuel — the JS recursion,
which has no cycle guard at all, descends forever — and `findShortestPath`
terminates by silently pruning the revisited id and returns an ordinary path
result.  Neither operation raises anything resembling a structural-integrity
error (no such error exists anywhere in the code base), contradicting the
claimed StructuralIntegrityError for both. -/
theorem C1_cycle_no_structural_error :
    (∀ fuel : Nat, buildTreeHierarchy cycRepo "a".data fuel = none) ∧
    findShortestPath cycRepo "a".data "b".data = some ([cycA, cycB], 3) := by
  constructor
  · have hfa : findEventById cycRepo "a".data = some cycA := by decide
    have hfb : findEventById cycRepo "b".data = some cycB := by decide
    have hca : findAllDirectChildren cycRepo "a".data = [cycB] := by decide
    have hcb : findAllDirectChildren cycRepo "b".data = [cycA] := by decide
    have key : ∀ fuel : Nat, buildTreeHierarchy cycRepo "a".data fuel = none ∧
        buildTreeHierarchy cycRepo "b".data fuel = none := by
      intro fuel
      induction fuel with
      | zero => exact ⟨by rw [buildTreeHierarchy], by rw [buildTreeHierarchy]⟩
      | succ n ih =>
        constructor
        · rw [buildTreeHierarchy, hfa, hca, buildTreeHierarchy.buildChildren]
          have hid : cycB.event_id = "b".data := rfl
          rw [hid, ih.2]
        · rw [buildTreeHierarchy, hfb, hcb, buildTreeHierarchy.buildChildren]
          have hid : cycA.event_id = "a".data := rfl
          rw [hid, ih.1]
    exact fun fuel => (key fuel).1
  · decide

theorem chain_of_mem_cteGen (repo : Repo) (src : Str) :
    ∀ n r, r ∈ cteGen repo src n → Chain repo src r := by
  intro n
  induction n with
  | zero =>
    intro r hr
    rw [cteGen, List.mem_map] at hr
    obtain ⟨e, he, rfl⟩ := hr
    rw [List.mem_filter] at he
    exact Chain.base e he.1 (by simpa using he.2)
  | succ n ih =>
    intro r hr
    rw [cteGen, List.mem_flatMap] at hr
    obtain ⟨r0, hr0, hr⟩ := hr
    rw [List.mem_map] at hr
    obtain ⟨e, he, rfl⟩ := hr
    rw [List.mem_filter] at he
    obtain ⟨heRepo, hcond⟩ := he
    simp only [Bool.and_eq_true, decide_eq_true_eq] at hcond
    refine Chain.step r0 e (ih r0 hr0) heRepo hcond.1 ?_
    have h2 := hcond.2
    simp only [Bool.not_eq_true', List.contains] at h2
    intro hmem
    rw [List.elem_iff.mpr hmem] at h2
    exact Bool.true_eq_false.mp h2

theorem cteGen_path_length (repo : Repo) (src : Str) :
    ∀ n r, r ∈ cteGen repo src n → r.path.length = n + 1 := by
  intro n
  induction n with
  | zero =>
    intro r hr
    rw [cteGen, List.mem_map] at hr
    obtain ⟨e, _, rfl⟩ := hr
    rfl
  | succ n ih =>
    intro r hr
    rw [cteGen, List.mem_flatMap] at hr
    obtain ⟨r0, hr0, hr⟩ := hr
    rw [List.mem_map] at hr
    obtain ⟨e, _, rfl⟩ := hr
    simp [List.length_append, ih r0 hr0]

theorem chain_cur_mem (repo : Repo) (src : Str) (r : PathRow) (h : Chain repo src r) :
    r.cur ∈ repo := by
  cases h with
  | base e he _ => exact he
  | step r0 e _ he _ _ => exact he

theorem chain_path_ne_nil (repo : Repo) (src : Str) (r : PathRow) (h : Chain repo src r) :
    r.path ≠ [] := by
  cases h with
  | base e _ _ => simp
  | step r0 e _ _ _ _ => simp

theorem chain_last (repo : Repo) (src : Str) (r : PathRow) (h : Chain repo src r) :
    r.path.getLast? = some r.cur.event_id := by
  cases h with
  | base e _ _ => rfl
  | step r0 e _ _ _ _ => exact List.getLast?_concat _

theorem chain_head (repo : Repo) (src : Str) (r : PathRow) (h : Chain repo src r) :
    r.path.head? = some src := by
  induction h with
  | base e he hid => simpa using hid
  | step r0 e hc he hp hn ih =>
    show (r0.path ++ [e.event_id]).head? = some src
    rw [List.head?_append, ih]
    rfl

theorem chain_nodup (repo : Repo) (src : Str) (r : PathRow) (h : Chain repo src r) :
    r.path.Nodup := by
  induction h with
  | base e he hid => simp
  | step r0 e hc he hp hn ih =>
    show (r0.path ++ [e.event_id]).Nodup
    rw [List.nodup_append]
    refine ⟨ih, List.nodup_singleton _, ?_⟩
    intro a ha hb
    rw [List.mem_singleton] at hb
    exact hn (hb ▸ ha)

theorem chain_ids (repo : Repo) (src : Str) (r : PathRow) (h : Chain repo src r) :
    ∀ x ∈ r.path, x ∈ repo.map (fun e => e.event_id) := by
  induction h with
  | base e he hid =>
    intro x hx
    rw [List.mem_singleton] at hx
    exact hx ▸ List.mem_map_of_mem _ he
  | step r0 e hc he hp hn ih =>
    intro x hx
    rcases List.mem_append.mp hx with h1 | h1
    · exact ih x h1
    · rw [List.mem_singleton] at h1
      exact h1 ▸ List.mem_map_of_mem _ he

theorem chain_reach (repo : Repo) (src : Str) (r : PathRow) (h : Chain repo src r) :
    ∀ x ∈ r.path, Relation.ReflTransGen (stepR repo) x r.cur.event_id := by
  induction h with
  | base e he hid =>
    intro x hx
    rw [List.mem_singleton] at hx
    exact hx ▸ Relation.ReflTransGen.refl
  | step r0 e hc he hp hn ih =>
    intro x hx
    rcases List.mem_append.mp hx with h1 | h1
    · exact Relation.ReflTransGen.tail (ih x h1) ⟨e, he, rfl, hp⟩
    · rw [List.mem_singleton] at h1
      exact h1 ▸ Relation.ReflTransGen.refl

theorem chain_reaches_src (repo : Repo) (src : Str) (r : PathRow) (h : Chain repo src r) :
    Reaches repo src r.cur.event_id := by
  refine chain_reach repo src r h src ?_
  exact List.mem_of_mem_head? (by rw [chain_head repo src r h]; rfl)

theorem mem_cteGen_of_chain (repo : Repo) (src : Str) (r : PathRow) (h : Chain repo src r) :
    r ∈ cteGen repo src (r.path.length - 1) := by
  induction h with
  | base e he hid =>
    show _ ∈ cteGen repo src ([e.event_id].length - 1)
    rw [List.length_singleton]
    rw [cteGen, List.mem_map]
    exact ⟨e, List.mem_filter.mpr ⟨he, by simpa using hid⟩, rfl⟩
  | step r0 e hc he hp hn ih =>
    have hpos : 0 < r0.path.length :=
      List.length_pos.mpr (chain_path_ne_nil repo src r0 hc)
    show _ ∈ cteGen repo src ((r0.path ++ [e.event_id]).length - 1)
    have hlen : (r0.path ++ [e.event_id]).length - 1 = (r0.path.length - 1) + 1 := by
      rw [List.length_append, List.length_singleton]
      omega
    rw [hlen, cteGen, List.mem_flatMap]
    refine ⟨r0, ih, ?_⟩
    rw [List.mem_map]
    refine ⟨e, List.mem_filter.mpr ⟨he, ?_⟩, rfl⟩
    simp only [Bool.and_eq_true, decide_eq_true_eq, Bool.not_eq_true', List.contains]
    refine ⟨hp, ?_⟩
    cases h2 : List.elem e.event_id r0.path with
    | false => rfl
    | true => exact absurd (List.elem_iff.mp h2) hn

theorem chain_path_le_length (repo : Repo) (src : Str) (r : PathRow) (h : Chain repo src r)
    (hN : (repo.map (fun e => e.event_id)).Nodup) : r.path.length ≤ repo.length := by
  have hsub : r.path ⊆ repo.map (fun e => e.event_id) := fun x hx => chain_ids repo src r h x hx
  have := ((chain_nodup repo src r h).subperm hsub).length_le
  simpa using this

theorem mem_cteAll_iff (repo : Repo) (src : Str)
    (hN : (repo.map (fun e => e.event_id)).Nodup) (r : PathRow) :
    r ∈ cteAll repo src ↔ Chain repo src r := by
  constructor
  · intro hr
    rw [cteAll, List.mem_flatMap] at hr
    obtain ⟨n, _, hr⟩ := hr
    exact chain_of_mem_cteGen repo src n r hr
  · intro h
    rw [cteAll, List.mem_flatMap]
    refine ⟨r.path.length - 1, ?_, mem_cteGen_of_chain repo src r h⟩
    rw [List.mem_range]
    have h1 := chain_path_le_length repo src r h hN
    have h2 : 0 < r.path.length := List.length_pos.mpr (chain_path_ne_nil repo src r h)
    omega

/-- Generations at or past the repository size are empty (when ids are
duplicate-free), so `cteAll` is the full fixpoint of the recursive CTE: the
SQL recursion stops exactly when a generation produces no row. -/
theorem cteGen_eq_nil (repo : Repo) (src : Str)
    (hN : (repo.map (fun e => e.event_id)).Nodup) (n : Nat) (hn : repo.length ≤ n) :
    cteGen repo src n = [] := by
  cases hr : cteGen repo src n with
  | nil => rfl
  | cons r rest =>
    exfalso
    have hmem : r ∈ cteGen repo src n := by rw [hr]; exact List.mem_cons_self r rest
    have hlen := cteGen_path_length repo src n r hmem
    have hchain := chain_of_mem_cteGen repo src n r hmem
    have := chain_path_le_length repo src r hchain hN
    omega

theorem event_id_inj (repo : Repo) (hN : (repo.map (fun e => e.event_id)).Nodup)
    {a b : Event} (ha : a ∈ repo) (hb : b ∈ repo) (h : a.event_id = b.event_id) : a = b :=
  List.inj_on_of_nodup_map hN ha hb h

theorem chain_unique (repo : Repo) (src : Str)
    (hN : (repo.map (fun e => e.event_id)).Nodup)
    (hA : ∀ x, ¬ Relation.TransGen (stepR repo) x x) :
    ∀ r1, Chain repo src r1 → ∀ r2, Chain repo src r2 →
      r1.cur.event_id = r2.cur.event_id → r1 = r2 := by
  intro r1 h1
  induction h1 with
  | base e he hid =>
    intro r2 h2 hcur
    cases h2 with
    | base e2 he2 hid2 =>
      have he2e : e = e2 := event_id_inj repo hN he he2 hcur
      subst he2e
      rfl
    | step r0 e2 hc2 he2 hp2 hn2 =>
      exfalso
      have hreach : Relation.ReflTransGen (stepR repo) src r0.cur.event_id :=
        chain_reaches_src repo src r0 hc2
      have hstep : stepR repo r0.cur.event_id src :=
        ⟨e2, he2, by rw [← hcur]; exact hid, hp2⟩
      exact hA src (Relation.TransGen.tail' hreach hstep)
  | step r0 e hc he hp hn ih =>
    intro r2 h2 hcur
    cases h2 with
    | base e2 he2 hid2 =>
      exfalso
      have hreach : Relation.ReflTransGen (stepR repo) src r0.cur.event_id :=
        chain_reaches_src repo src r0 hc
      have hstep : stepR repo r0.cur.event_id src :=
        ⟨e, he, by rw [hcur]; exact hid2, hp⟩
      exact hA src (Relation.TransGen.tail' hreach hstep)
    | step r0' e2 hc2 he2 hp2 hn2 =>
      have he2e : e = e2 := event_id_inj repo hN he he2 hcur
      subst he2e
      have hpar : r0.cur.event_id = r0'.cur.event_id := by
        rw [hp] at hp2
        exact Option.some.inj hp2
      have h0 := ih r0' hc2 hpar
      rw [h0]

theorem chain_exists (repo : Repo) (src : Str)
    (hA : ∀ x, ¬ Relation.TransGen (stepR repo) x x)
    (e0 : Event) (h0 : e0 ∈ repo) (hid0 : e0.event_id = src)
    (tgt : Str) (hreach : Reaches repo src tgt) :
    ∃ r, Chain repo src r ∧ r.cur.event_id = tgt := by
  induction hreach with
  | refl => exact ⟨⟨e0, [e0.event_id], e0.duration_minutes⟩, Chain.base e0 h0 hid0, hid0⟩
  | tail hmid hstep ih =>
    obtain ⟨r, hr, hcur⟩ := ih
    obtain ⟨e, he, heid, hepar⟩ := hstep
    by_cases hmem : e.event_id ∈ r.path
    · exfalso
      have h1 : Relation.ReflTransGen (stepR repo) e.event_id r.cur.event_id :=
        chain_reach repo src r hr e.event_id hmem
      have h2 : stepR repo r.cur.event_id e.event_id := ⟨e, he, rfl, by rw [hcur]; exact hepar⟩
      exact hA e.event_id (Relation.TransGen.tail' h1 h2)
    · exact ⟨⟨e, r.path ++ [e.event_id], r.total + e.duration_minutes⟩,
        Chain.step r e hr he (by rw [hcur]; exact hepar) hmem, heid⟩

theorem findEventById_of_nodup (repo : Repo)
    (hN : (repo.map (fun e => e.event_id)).Nodup) (e : Event) (he : e ∈ repo) :
    findEventById repo e.event_id = some e := by
  induction repo with
  | nil => cases he
  | cons x xs ih =>
    rw [List.map_cons, List.nodup_cons] at hN
    rcases List.mem_cons.mp he with h | h
    · subst h
      rw [findEventById, List.find?_cons_of_pos _ (by simp)]
    · have hne : x.event_id ≠ e.event_id := by
        intro hEq
        exact hN.1 (hEq ▸ List.mem_map_of_mem _ h)
      rw [findEventById, List.find?_cons_of_neg _ (by simp [hne])]
      exact ih hN.2 h

theorem chain_resolve (repo : Repo) (src : Str)
    (hN : (repo.map (fun e => e.event_id)).Nodup) :
    ∀ r, Chain repo src r →
      DescentPath repo (r.path.filterMap (findEventById repo)) ∧
      (r.path.filterMap (findEventById repo)).map (fun e => e.event_id) = r.path ∧
      sumDurations (r.path.filterMap (findEventById repo)) = r.total ∧
      (r.path.filterMap (findEventById repo)).getLast? = some r.cur := by
  intro r h
  induction h with
  | base e he hid =>
    have hfind : findEventById repo e.event_id = some e := findEventById_of_nodup repo hN e he
    show DescentPath repo ([e.event_id].filterMap _) ∧ _
    rw [show [e.event_id].filterMap (findEventById repo) = [e] by
      simp [List.filterMap_cons, hfind]]
    refine ⟨⟨?_, List.chain'_singleton e⟩, by simp, by simp [sumDurations], rfl⟩
    intro x hx
    rw [List.mem_singleton] at hx
    exact hx ▸ he
  | step r0 e hc he hp hn ih =>
    have hfind : findEventById repo e.event_id = some e := findEventById_of_nodup repo hN e he
    obtain ⟨⟨ihmem, ihchain⟩, ihmap, ihsum, ihlast⟩ := ih
    show DescentPath repo ((r0.path ++ [e.event_id]).filterMap _) ∧ _
    rw [List.filterMap_append, show [e.event_id].filterMap (findEventById repo) = [e] by
      simp [List.filterMap_cons, hfind]]
    refine ⟨⟨?_, ?_⟩, ?_, ?_, List.getLast?_concat _⟩
    · intro x hx
      rcases List.mem_append.mp hx with h1 | h1
      · exact ihmem x h1
      · rw [List.mem_singleton] at h1
        exact h1 ▸ he
    · rw [List.chain'_append]
      refine ⟨ihchain, List.chain'_singleton e, ?_⟩
      intro x hx y hy
      rw [ihlast, Option.mem_def, Option.some.injEq] at hx
      simp only [List.head?_cons, Option.mem_def, Option.some.injEq] at hy
      subst hx
      subst hy
      exact hp
    · rw [List.map_append, ihmap]
      rfl
    · rw [sumDurations, List.map_append, List.sum_append]
      rw [sumDurations] at ihsum
      simp [ihsum]

theorem insertionSort_head_all_eq (l : List PathRow) (a : PathRow) (hne : l ≠ [])
    (hall : ∀ x ∈ l, x = a) :
    ∃ tl, List.insertionSort byTotalAsc l = a :: tl := by
  have hperm := List.perm_insertionSort byTotalAsc l
  cases hS : List.insertionSort byTotalAsc l with
  | nil =>
    rw [hS] at hperm
    exact absurd hperm.symm.eq_nil hne
  | cons y ys =>
    rw [hS] at hperm
    have hy : y ∈ l := hperm.mem_iff.mp (List.mem_cons_self y ys)
    rw [hall y hy]
    exact ⟨ys, rfl⟩

theorem acyclic_of_rank (repo : Repo) (f : Str → Nat)
    (hf : ∀ x y, stepR repo x y → f x < f y) :
    ∀ x, ¬ Relation.TransGen (stepR repo) x x := by
  intro x hx
  have key : ∀ a b, Relation.TransGen (stepR repo) a b → f a < f b := by
    intro a b h
    induction h with
    | single h1 => exact hf _ _ h1
    | tail h1 h2 ih => exact lt_trans ih (hf _ _ h2)
  exact lt_irrefl _ (key x x hx)

theorem cteAll_eq_nil_of_no_source (repo : Repo) (src : Str)
    (h : findEventById repo src = none) : cteAll repo src = [] := by
  rw [findEventById, List.find?_eq_none] at h
  have hgen : ∀ n, cteGen repo src n = [] := by
    intro n
    induction n with
    | zero =>
      rw [cteGen, List.filter_eq_nil_iff.mpr h]
      rfl
    | succ n ih => rw [cteGen, ih]; rfl
  rw [cteAll, List.flatMap_eq_nil_iff]
  intro n _
  exact hgen n

/-- C6: with duplicate-free ids and acyclic parent pointers (the intended
forest), `findShortestPath` returns `null` when the source id is not stored
(`getEventInfluence` then reports an empty path with zero total duration);
returns `null` with the same zero-duration response when the target is not
the source or one of its descendants; and otherwise returns the descent path
from source to target inclusive, whose total is the sum of `durationMinutes`
over every event on the path, both endpoints included. -/
theorem C6_shortest_path_spec (repo : Repo) (src tgt : Str)
    (hN : (repo.map (fun e => e.event_id)).Nodup)
    (hA : ∀ x, ¬ Relation.TransGen (stepR repo) x x) :
    (findEventById repo src = none → findShortestPath repo src tgt = none ∧
      getEventInfluence repo src tgt =
        ⟨[], 0, "No temporal path found from source to target event.".data⟩) ∧
    (¬ Reaches repo src tgt → findShortestPath repo src tgt = none ∧
      getEventInfluence repo src tgt =
        ⟨[], 0, "No temporal path found from source to target event.".data⟩) ∧
    (∀ e0, findEventById repo src = some e0 → Reaches repo src tgt →
      ∃ es, findShortestPath repo src tgt = some (es, sumDurations es) ∧
        DescentPath repo es ∧
        es.head?.map (fun e => e.event_id) = some src ∧
        es.getLast?.map (fun e => e.event_id) = some tgt) := by
  refine ⟨?_, ?_, ?_⟩
  · intro h
    have hnone : findShortestPath repo src tgt = none := by
      simp only [findShortestPath, cteAll_eq_nil_of_no_source repo src h]
      rfl
    exact ⟨hnone, by rw [getEventInfluence, hnone]⟩
  · intro h
    have hrows : (cteAll repo src).filter (fun r => r.cur.event_id = tgt) = [] := by
      rw [List.filter_eq_nil_iff]
      intro r hr
      simp only [decide_eq_true_eq]
      intro hEq
      rw [cteAll, List.mem_flatMap] at hr
      obtain ⟨n, _, hr⟩ := hr
      have hchain := chain_of_mem_cteGen repo src n r hr
      exact h (hEq ▸ chain_reaches_src repo src r hchain)
    have hnone : findShortestPath repo src tgt = none := by
      simp only [findShortestPath, hrows]
      rfl
    exact ⟨hnone, by rw [getEventInfluence, hnone]⟩
  · intro e0 h0 hreach
    have he0 : e0 ∈ repo := List.mem_of_find?_eq_some h0
    have hid0 : e0.event_id = src := by
      have := List.find?_some h0
      simpa using this
    obtain ⟨rstar, hrstar, hcur⟩ := chain_exists repo src hA e0 he0 hid0 tgt hreach
    have hmemr : rstar ∈ (cteAll repo src).filter (fun r => r.cur.event_id = tgt) :=
      List.mem_filter.mpr ⟨(mem_cteAll_iff repo src hN rstar).mpr hrstar, by simp [hcur]⟩
    have hall : ∀ x ∈ (cteAll repo src).filter (fun r => r.cur.event_id = tgt), x = rstar := by
      intro x hx
      obtain ⟨hx1, hx2⟩ := List.mem_filter.mp hx
      refine chain_unique repo src hN hA x ((mem_cteAll_iff repo src hN x).mp hx1)
        rstar hrstar ?_
      simp only [decide_eq_true_eq] at hx2
      rw [hx2, hcur]
    obtain ⟨tl, hsort⟩ := insertionSort_head_all_eq _ rstar
      (by intro hemp; rw [hemp] at hmemr; cases hmemr) hall
    obtain ⟨hdesc, hmap, hsum, hlast⟩ := chain_resolve repo src hN rstar hrstar
    refine ⟨rstar.path.filterMap (findEventById repo), ?_, hdesc, ?_, ?_⟩
    · simp only [findShortestPath]
      rw [hsort]
      show some (rstar.path.filterMap (findEventById repo), rstar.total) = _
      rw [hsum]
    · have h1 := chain_head repo src rstar hrstar
      rw [← hmap, List.head?_map] at h1
      exact h1
    · have h1 := chain_last repo src rstar hrstar
      rw [← hmap, List.getLast?_map] at h1
      rw [h1]
      simp [hcur]

/-- C6 (witness): the path specification instantiated on the concrete
three-event chain repository with source `a` and target `c`. -/
theorem C6_witness :
    (findEventById chainRepo "a".data = none →
      findShortestPath chainRepo "a".data "c".data = none ∧
      getEventInfluence chainRepo "a".data "c".data =
        ⟨[], 0, "No temporal path found from source to target event.".data⟩) ∧
    (¬ Reaches chainRepo "a".data "c".data →
      findShortestPath chainRepo "a".data "c".data = none ∧
      getEventInfluence chainRepo "a".data "c".data =
        ⟨[], 0, "No temporal path found from source to target event.".data⟩) ∧
    (∀ e0, findEventById chainRepo "a".data = some e0 →
      Reaches chainRepo "a".data "c".data →
      ∃ es, findShortestPath chainRepo "a".data "c".data = some (es, sumDurations es) ∧
        DescentPath chainRepo es ∧
        es.head?.map (fun e => e.event_id) = some "a".data ∧
        es.getLast?.map (fun e => e.event_id) = some "c".data) := by
  refine C6_shortest_path_spec chainRepo "a".data "c".data (by decide)
    (acyclic_of_rank chainRepo chainRank ?_)
  intro x y hstep
  obtain ⟨e, he, hid, hp⟩ := hstep
  simp only [chainRepo, List.mem_cons, List.mem_singleton, List.not_mem_nil, or_false] at he
  rcases he with rfl | rfl | rfl
  · exact absurd hp (by simp [chainA, mkEvent])
  · have hx : some ("a".data : Str) = some x := by
      rw [← hp]
      rfl
    have hy : ("b".data : Str) = y := by rw [← hid]; rfl
    rw [← Option.some.inj hx, ← hy]
    decide
  · have hx : some ("b".data : Str) = some x := by
      rw [← hp]
      rfl
    have hy : ("c".data : Str) = y := by rw [← hid]; rfl
    rw [← Option.some.inj hx, ← hy]
    decide

/-- C10: with duplicate-free ids and acyclic parent pointers, the degenerate
query with source equal to target succeeds for every stored event and returns
the one-event path carrying that event's own duration: the CTE base row
already seeds `total_duration` with the source's `duration_minutes`, so the
self-path total is not zero but the event's duration. -/
theorem C10_self_path (repo : Repo)
    (hN : (repo.map (fun e => e.event_id)).Nodup)
    (hA : ∀ x, ¬ Relation.TransGen (stepR repo) x x)
    (e : Event) (he : e ∈ repo) :
    findShortestPath repo e.event_id e.event_id = some ([e], e.duration_minutes) := by
  have hbase : Chain repo e.event_id ⟨e, [e.event_id], e.duration_minutes⟩ :=
    Chain.base e he rfl
  have hmemr : (⟨e, [e.event_id], e.duration_minutes⟩ : PathRow) ∈
      (cteAll repo e.event_id).filter (fun r => r.cur.event_id = e.event_id) :=
    List.mem_filter.mpr ⟨(mem_cteAll_iff repo e.event_id hN _).mpr hbase, by simp⟩
  have hall : ∀ x ∈ (cteAll repo e.event_id).filter (fun r => r.cur.event_id = e.event_id),
      x = ⟨e, [e.event_id], e.duration_minutes⟩ := by
    intro x hx
    obtain ⟨hx1, hx2⟩ := List.mem_filter.mp hx
    refine chain_unique repo e.event_id hN hA x
      ((mem_cteAll_iff repo e.event_id hN x).mp hx1) _ hbase ?_
    simpa using hx2
  obtain ⟨tl, hsort⟩ := insertionSort_head_all_eq _ _
    (by intro hemp; rw [hemp] at hmemr; cases hmemr) hall
  simp only [findShortestPath]
  rw [hsort]
  show some ([e.event_id].filterMap (findEventById repo), e.duration_minutes) = _
  rw [show [e.event_id].filterMap (findEventById repo) = [e] by
    simp [List.filterMap_cons, findEventById_of_nodup repo hN e he]]

/-- C10 (witness): the degenerate self-path query on the single-event
repository returns that event with its own duration, 2 minutes. -/
theorem C10_witness :
    findShortestPath soloRepo "s".data "s".data = some ([soloE], 2) := by
  have hA : ∀ x, ¬ Relation.TransGen (stepR soloRepo) x x := by
    refine acyclic_of_rank soloRepo soloRank ?_
    intro x y hstep
    obtain ⟨e, he, hid, hp⟩ := hstep
    simp only [soloRepo, List.mem_singleton] at he
    subst he
    exact absurd hp (by simp [soloE, mkEvent])
  exact C10_self_path soloRepo (by decide) hA soloE (by decide)

end Kelp
